import Mathlib

/-!
Verification of the dedup/sync-cycle core of reddit2dynalist.

The Go program (src/main.go) keeps a `Cache` mapping Reddit post ids to the
time each id was first processed, runs a polling cycle `processNewPosts`
(fetch saved posts, skip ids already cached, record fresh ids, render a line
of text, append it to Dynalist, evict cache entries older than 7 days,
save the cache to a file), and persists the cache with `SaveToFile` /
`LoadCacheFromFile`.  This file embeds those parts shallowly: Go maps become
association lists with map semantics, `time.Time` becomes `Int`
(nanoseconds), network calls become oracle functions supplied by an
environment, and file contents become an explicit inductive.
-/

/-- A saved Reddit item as the program sees it: `FullID`, `Title`, `Author`,
`Permalink` and the `IsComment` flag (the flag exists only in the
`src/unnamed/part_001` variant of the program; the `src/main.go` formatter
never consults it). -/
structure RedditPost where
  fullID : String
  title : String
  author : String
  permalink : String
  isComment : Bool
deriving DecidableEq

/-- The dedup store: Go's `Cache` struct, whose single field is the map
`Posts map[string]time.Time`.  The map is embedded as an association list
whose observable behaviour (first-binding lookup, overwrite on insert) is
exactly the Go map's. -/
structure Cache where
  posts : List (String × Int)
deriving DecidableEq

/-- First-binding lookup in an association list, the reading of `m[id]` on a
Go map value. -/
def lookupPosts (id : String) : List (String × Int) → Option Int
  | [] => none
  | p :: rest => if p.1 = id then some p.2 else lookupPosts id rest

/-- Go `cache.Posts[id]` (value part of the comma-ok read). -/
def Cache.lookup (c : Cache) (id : String) : Option Int :=
  lookupPosts id c.posts

/-- Go `_, exists := cache.Posts[id]` (src/main.go line 329). -/
def Cache.contains (c : Cache) (id : String) : Bool :=
  (c.lookup id).isSome

/-- Removal of every binding for key `k` from an association list: the
map-semantics half of a Go map assignment (the assigned key's old binding,
if any, goes away). -/
def erasePosts (k : String) : List (String × Int) → List (String × Int)
  | [] => []
  | p :: rest => if p.1 = k then erasePosts k rest else p :: erasePosts k rest

/-- Go `cache.Posts[id] = now` (src/main.go line 334): map assignment, i.e.
any previous binding for `id` is replaced. -/
def Cache.record (c : Cache) (id : String) (now : Int) : Cache :=
  ⟨(id, now) :: erasePosts id c.posts⟩

/-- Seven days, the retention window: `7 * 24 * time.Hour` in nanoseconds
(src/main.go line 360). -/
def sevenDays : Int := 7 * 24 * 60 * 60 * 1000000000

/-- The cleanup loop of src/main.go lines 358-363 over the map's entries:
delete every entry with `now.Sub(timestamp) > window` (written here as
`window < now - timestamp`), keep the rest. -/
def evictPosts (now window : Int) : List (String × Int) → List (String × Int)
  | [] => []
  | p :: rest =>
    if window < now - p.2 then evictPosts now window rest
    else p :: evictPosts now window rest

/-- The whole cleanup step of src/main.go lines 357-363. -/
def Cache.evict (c : Cache) (now window : Int) : Cache :=
  ⟨evictPosts now window c.posts⟩

/-- A `Cache` with an empty `Posts` map, as built by
`make(map[string]time.Time)`. -/
def emptyCache : Cache := ⟨[]⟩

/-- The formatter of src/main.go lines 336-343: two cases driven solely by
whether `post.Title` is empty. -/
def renderContent (post : RedditPost) : String :=
  if post.title ≠ "" then
    post.title ++ " - https://reddit.com" ++ post.permalink
  else
    "Comment by " ++ post.author ++ " - https://reddit.com" ++ post.permalink

/-- The formatter of the src/unnamed/part_001 variant (lines 459-467 of that
file): three cases, first on `IsComment`, then on the title. -/
def renderContentAlt (post : RedditPost) : String :=
  if post.isComment then
    "Comment by " ++ post.author ++ " - https://reddit.com" ++ post.permalink
  else if post.title ≠ "" then
    post.title ++ " - https://reddit.com" ++ post.permalink
  else
    "Post by " ++ post.author ++ " - https://reddit.com" ++ post.permalink

/-- The spec's three-case formatting rule, written from the spec's words
(section 4.4) for comparison with the code's formatters: comment →
"Comment by {author} - ...", post with non-empty title → "{title} - ...",
post with empty title → "Post by {author} - ...". -/
def renderSpecThreeCase (post : RedditPost) : String :=
  if post.isComment then
    "Comment by " ++ post.author ++ " - https://reddit.com" ++ post.permalink
  else if post.title ≠ "" then
    post.title ++ " - https://reddit.com" ++ post.permalink
  else
    "Post by " ++ post.author ++ " - https://reddit.com" ++ post.permalink

/-- The amended (two-case) formatting rule for src/main.go, written from the
amended claim's words: empty title → "Comment by {author} - ...", otherwise
"{title} - ...". -/
def renderSpecTwoCase (post : RedditPost) : String :=
  if post.title = "" then
    "Comment by " ++ post.author ++ " - https://reddit.com" ++ post.permalink
  else
    post.title ++ " - https://reddit.com" ++ post.permalink

/-! ### Basic store lemmas -/

theorem lookupPosts_erase_ne (id k : String) (h : id ≠ k) :
    ∀ l : List (String × Int), lookupPosts id (erasePosts k l) = lookupPosts id l := by
  intro l
  induction l with
  | nil => rfl
  | cons q rest ih =>
    by_cases hq : q.1 = k
    · have hne : q.1 ≠ id := fun hcontra => h (hcontra ▸ hq)
      rw [erasePosts, if_pos hq, lookupPosts, if_neg hne, ih]
    · rw [erasePosts, if_neg hq, lookupPosts, lookupPosts]
      by_cases hid : q.1 = id
      · rw [if_pos hid, if_pos hid]
      · rw [if_neg hid, if_neg hid, ih]

theorem lookup_record (c : Cache) (id k : String) (t : Int) :
    (c.record k t).lookup id = if id = k then some t else c.lookup id := by
  unfold Cache.record Cache.lookup
  by_cases h : id = k
  · rw [lookupPosts, if_pos h.symm, if_pos h]
  · have hk : k ≠ id := fun hc => h hc.symm
    rw [lookupPosts, if_neg hk, if_neg h]
    exact lookupPosts_erase_ne id k h _

theorem contains_record (c : Cache) (id k : String) (t : Int) :
    (c.record k t).contains id = (decide (id = k) || c.contains id) := by
  unfold Cache.contains
  rw [lookup_record]
  by_cases h : id = k <;> simp [h]

theorem mem_evictPosts (now w : Int) (p : String × Int) :
    ∀ l : List (String × Int),
      p ∈ evictPosts now w l ↔ (p ∈ l ∧ now - p.2 ≤ w) := by
  intro l
  induction l with
  | nil => simp [evictPosts]
  | cons q rest ih =>
    by_cases hq : w < now - q.2
    · rw [evictPosts, if_pos hq]
      constructor
      · intro hmem
        have := ih.mp hmem
        exact ⟨List.mem_cons_of_mem q this.1, this.2⟩
      · rintro ⟨hmem, hage⟩
        rcases List.mem_cons.mp hmem with rfl | hmem2
        · exact absurd hq (not_lt.mpr hage)
        · exact ih.mpr ⟨hmem2, hage⟩
    · rw [evictPosts, if_neg hq]
      constructor
      · intro hmem
        rcases List.mem_cons.mp hmem with rfl | hmem2
        · exact ⟨List.mem_cons_self p rest, not_lt.mp hq⟩
        · have := ih.mp hmem2
          exact ⟨List.mem_cons_of_mem q this.1, this.2⟩
      · rintro ⟨hmem, hage⟩
        rcases List.mem_cons.mp hmem with rfl | hmem2
        · exact List.mem_cons_self p _
        · exact List.mem_cons_of_mem q (ih.mpr ⟨hmem2, hage⟩)

theorem mem_evict (c : Cache) (now w : Int) (p : String × Int) :
    p ∈ (c.evict now w).posts ↔ (p ∈ c.posts ∧ now - p.2 ≤ w) :=
  mem_evictPosts now w p c.posts

theorem lookupPosts_evict_of_le (now w : Int) (id : String) (t : Int) (hle : now - t ≤ w) :
    ∀ l : List (String × Int), lookupPosts id l = some t →
      lookupPosts id (evictPosts now w l) = some t := by
  intro l
  induction l with
  | nil => intro h; simp [lookupPosts] at h
  | cons q rest ih =>
    intro h
    by_cases hq : q.1 = id
    · have hqt : q.2 = t := by
        rw [lookupPosts, if_pos hq] at h
        exact Option.some.inj h
      have hkeep : ¬ w < now - q.2 := by rw [hqt]; exact not_lt.mpr hle
      rw [evictPosts, if_neg hkeep, lookupPosts, if_pos hq, hqt]
    · have hrest : lookupPosts id rest = some t := by
        rw [lookupPosts, if_neg hq] at h
        exact h
      by_cases hk : w < now - q.2
      · rw [evictPosts, if_pos hk]
        exact ih hrest
      · rw [evictPosts, if_neg hk, lookupPosts, if_neg hq]
        exact ih hrest

theorem lookup_evict_of_le (c : Cache) (now w : Int) (id : String) (t : Int)
    (h : c.lookup id = some t) (hle : now - t ≤ w) :
    (c.evict now w).lookup id = some t :=
  lookupPosts_evict_of_le now w id t hle c.posts h

theorem contains_evict_of_lookup (c : Cache) (now w : Int) (id : String) (t : Int)
    (h : c.lookup id = some t) (hle : now - t ≤ w) :
    (c.evict now w).contains id = true := by
  unfold Cache.contains
  rw [lookup_evict_of_le c now w id t h hle]
  rfl

/-! ### The sync cycle (src/main.go `processNewPosts`, lines 300-375) -/

/-- The outside world a cycle interacts with: `clock` gives the result of
the n-th `time.Now()` call of the cycle, and `sinkOk` tells whether
`dynalistClient.CreateItem(documentID, content)` succeeds for a given
content string. -/
structure CycleEnv where
  clock : Nat → Int
  sinkOk : String → Bool

/-- One attempted `CreateItem` call: the item's id, the content string sent,
the index of the `time.Now()` call that recorded the id, the cache state at
the moment of the call (the record is already in it), and the call's
outcome. -/
structure AppendEvent where
  id : String
  content : String
  tick : Nat
  cacheAtCall : Cache
  ok : Bool
deriving DecidableEq

/-- The mutable state threaded through the `for _, post := range saved` loop
of src/main.go lines 327-355: the cache, the `newPosts` tally, how many
`time.Now()` calls have happened, and the append calls made so far. -/
structure LoopState where
  cache : Cache
  newPosts : Nat
  tick : Nat
  appends : List AppendEvent
deriving DecidableEq

/-- One iteration of the loop body (src/main.go lines 327-355): skip if the
id is cached; otherwise record the id with the current time, render the
content, attempt the Dynalist append, and count it only on success. -/
def processItem (env : CycleEnv) (st : LoopState) (post : RedditPost) : LoopState :=
  if st.cache.contains post.fullID then st
  else
    { cache := st.cache.record post.fullID (env.clock st.tick)
      newPosts := if env.sinkOk (renderContent post) then st.newPosts + 1 else st.newPosts
      tick := st.tick + 1
      appends := st.appends ++
        [⟨post.fullID, renderContent post, st.tick,
          st.cache.record post.fullID (env.clock st.tick),
          env.sinkOk (renderContent post)⟩] }

/-- The whole item loop, in source order. -/
def processLoop (env : CycleEnv) (posts : List RedditPost) (st : LoopState) : LoopState :=
  posts.foldl (processItem env) st

/-- Loop state at entry to the loop: the given cache, a zero tally, no
`time.Now()` calls yet, no appends yet. -/
def initLoopState (c : Cache) : LoopState := ⟨c, 0, 0, []⟩

/-- Everything a cycle produces: the cache afterwards, the append calls
made, the tally, the snapshot handed to `SaveToFile` (none when the cycle
aborted before persisting), the tally reported by the end-of-cycle log line
(none when aborted), and the `now` used for eviction (none when aborted). -/
structure CycleResult where
  cache : Cache
  appends : List AppendEvent
  delivered : Nat
  persisted : Option Cache
  summary : Option Nat
  evictedAt : Option Int
deriving DecidableEq

/-- The cycle function `processNewPosts` (src/main.go lines 300-375).
`fetched` is the result
of `redditClient.User.Saved`: `none` models a fetch error, upon which the
function logs and returns at once (lines 318-321); otherwise the item loop
runs, then the cleanup (lines 357-363) with a fresh `time.Now()`, then the
summary log line and `SaveToFile` on the post-cleanup cache. -/
def processNewPosts (env : CycleEnv) (fetched : Option (List RedditPost)) (c : Cache) :
    CycleResult :=
  match fetched with
  | none => ⟨c, [], 0, none, none, none⟩
  | some posts =>
    let st := processLoop env posts (initLoopState c)
    let now := env.clock st.tick
    let evicted := st.cache.evict now sevenDays
    ⟨evicted, st.appends, st.newPosts, some evicted, some st.newPosts, some now⟩

/-! ### Cache persistence (src/main.go `SaveToFile` / `LoadCacheFromFile`) -/

/-- What `os.ReadFile` + `json.Unmarshal` can observe in the cache file:
the file is missing, unreadable for another reason, present but not valid
JSON for a `Cache`, or a valid serialized record set (a JSON object is a
finite map, embedded as its list of key/value pairs with distinct keys
first-come-first-kept). -/
inductive FileContents where
  | missing
  | unreadable
  | corrupt
  | valid (object : List (String × Int))
deriving DecidableEq

/-- The loader `LoadCacheFromFile` (src/main.go lines 62-82): a missing file yields an
empty cache and no error; any other read error or an unmarshal error is
returned as an error; valid contents become the cache. -/
def LoadCacheFromFile : FileContents → Except String Cache
  | .missing => .ok emptyCache
  | .unreadable => .error "failed to read cache file"
  | .corrupt => .error "failed to unmarshal cache"
  | .valid l => .ok ⟨l⟩

/-- The load-or-start-fresh wrapper in `main` (src/main.go lines 203-209):
on a load error the process logs a warning and continues with a new empty
cache instead of terminating. -/
def loadCacheOrNew (f : FileContents) : Cache :=
  match LoadCacheFromFile f with
  | .ok c => c
  | .error _ => emptyCache

/-- Key dedup with first-binding-wins, the shape of the JSON object
`json.Marshal` produces for the `Posts` map: each key appears once, bound to
the map's value for it (which, for our association lists, is the first
binding). -/
def dedupKeys : List (String × Int) → List (String × Int)
  | [] => []
  | p :: rest => p :: erasePosts p.1 (dedupKeys rest)

/-- The marshaling step `json.Marshal(c)` in `SaveToFile` (src/main.go line 53): the serialized
record set, one entry per contained id. -/
def jsonOfCache (c : Cache) : List (String × Int) :=
  dedupKeys c.posts

/-- A file-system operation `SaveToFile` could perform. -/
inductive FsOp where
  | writeFile (path : String) (data : List (String × Int))
  | rename (src dst : String)
deriving DecidableEq

/-- Whether an operation is a rename. -/
def FsOp.isRename : FsOp → Bool
  | .rename _ _ => true
  | _ => false

/-- The operation trace of `SaveToFile` (src/main.go lines 52-59): a single
`os.WriteFile(filename, data, 0644)`, writing the marshaled record set
directly to the target path.  No temporary file, no rename. -/
def saveToFileOps (c : Cache) (filename : String) : List FsOp :=
  [FsOp.writeFile filename (jsonOfCache c)]

/-- Possible contents of the target file when the process crashes in the
middle of an operation.  `os.WriteFile` opens the target with `O_TRUNC` and
then writes sequentially, so an interruption can leave a truncated or
partial file that is not valid JSON (`corrupt`) as well as the fully
written file.  A rename never touches file bodies, so it leaves nothing
mid-written. -/
def crashOutcomes : FsOp → List FileContents
  | .writeFile _ data => [FileContents.corrupt, FileContents.valid data]
  | .rename _ _ => []

/-! ### Loop lemmas -/

theorem processLoop_nil (env : CycleEnv) (st : LoopState) :
    processLoop env [] st = st := rfl

theorem processLoop_cons (env : CycleEnv) (p : RedditPost) (rest : List RedditPost)
    (st : LoopState) :
    processLoop env (p :: rest) st = processLoop env rest (processItem env st p) := rfl

theorem processItem_of_contains (env : CycleEnv) (st : LoopState) (post : RedditPost)
    (h : st.cache.contains post.fullID = true) :
    processItem env st post = st := by
  unfold processItem
  rw [if_pos h]

theorem processItem_of_fresh (env : CycleEnv) (st : LoopState) (post : RedditPost)
    (h : st.cache.contains post.fullID = false) :
    processItem env st post =
      { cache := st.cache.record post.fullID (env.clock st.tick)
        newPosts := if env.sinkOk (renderContent post) then st.newPosts + 1 else st.newPosts
        tick := st.tick + 1
        appends := st.appends ++
          [⟨post.fullID, renderContent post, st.tick,
            st.cache.record post.fullID (env.clock st.tick),
            env.sinkOk (renderContent post)⟩] } := by
  unfold processItem
  simp [h]

theorem lookup_eq_none_of_contains_false (c : Cache) (id : String)
    (h : c.contains id = false) : c.lookup id = none := by
  unfold Cache.contains at h
  cases hl : c.lookup id with
  | none => rfl
  | some t => rw [hl] at h; simp at h

theorem contains_of_lookup_some (c : Cache) (id : String) (t : Int)
    (h : c.lookup id = some t) : c.contains id = true := by
  unfold Cache.contains
  rw [h]
  rfl

theorem processItem_tick_le (env : CycleEnv) (st : LoopState) (p : RedditPost) :
    st.tick ≤ (processItem env st p).tick := by
  by_cases h : st.cache.contains p.fullID = true
  · rw [processItem_of_contains env st p h]
  · have h2 : st.cache.contains p.fullID = false := by
      cases hb : st.cache.contains p.fullID
      · rfl
      · exact absurd hb h
    rw [processItem_of_fresh env st p h2]
    exact Nat.le_succ _

theorem processLoop_tick_le (env : CycleEnv) :
    ∀ (posts : List RedditPost) (st : LoopState),
      st.tick ≤ (processLoop env posts st).tick := by
  intro posts
  induction posts with
  | nil => intro st; exact Nat.le_refl _
  | cons p rest ih =>
    intro st
    exact Nat.le_trans (processItem_tick_le env st p) (ih (processItem env st p))

theorem contains_processItem_mono (env : CycleEnv) (st : LoopState) (p : RedditPost)
    (id : String) (h : st.cache.contains id = true) :
    (processItem env st p).cache.contains id = true := by
  by_cases hc : st.cache.contains p.fullID = true
  · rw [processItem_of_contains env st p hc]
    exact h
  · have hc2 : st.cache.contains p.fullID = false := by
      cases hb : st.cache.contains p.fullID
      · rfl
      · exact absurd hb hc
    rw [processItem_of_fresh env st p hc2]
    show (st.cache.record p.fullID (env.clock st.tick)).contains id = true
    rw [contains_record]
    simp [h]

theorem contains_processLoop_mono (env : CycleEnv) :
    ∀ (posts : List RedditPost) (st : LoopState) (id : String),
      st.cache.contains id = true →
      (processLoop env posts st).cache.contains id = true := by
  intro posts
  induction posts with
  | nil => intro st id h; exact h
  | cons p rest ih =>
    intro st id h
    exact ih (processItem env st p) id (contains_processItem_mono env st p id h)

theorem contains_processLoop_of_mem (env : CycleEnv) :
    ∀ (posts : List RedditPost) (st : LoopState) (post : RedditPost),
      post ∈ posts →
      (processLoop env posts st).cache.contains post.fullID = true := by
  intro posts
  induction posts with
  | nil => intro st post h; exact absurd h (List.not_mem_nil post)
  | cons p rest ih =>
    intro st post h
    rcases List.mem_cons.mp h with heq | hmem
    · have hc : (processItem env st p).cache.contains post.fullID = true := by
        rw [heq]
        by_cases h2 : st.cache.contains p.fullID = true
        · rw [processItem_of_contains env st p h2]
          exact h2
        · have h3 : st.cache.contains p.fullID = false := by
            cases hb : st.cache.contains p.fullID
            · rfl
            · exact absurd hb h2
          rw [processItem_of_fresh env st p h3]
          show (st.cache.record p.fullID (env.clock st.tick)).contains p.fullID = true
          rw [contains_record]
          simp
      exact contains_processLoop_mono env rest (processItem env st p) post.fullID hc
    · exact ih (processItem env st p) post hmem

theorem lookup_processLoop (env : CycleEnv) :
    ∀ (posts : List RedditPost) (st : LoopState) (id : String),
      (processLoop env posts st).cache.lookup id = st.cache.lookup id ∨
      ∃ i, st.tick ≤ i ∧ i < (processLoop env posts st).tick ∧
        (processLoop env posts st).cache.lookup id = some (env.clock i) := by
  intro posts
  induction posts with
  | nil => intro st id; exact Or.inl rfl
  | cons p rest ih =>
    intro st id
    rw [processLoop_cons]
    rcases ih (processItem env st p) id with h | ⟨i, h1, h2, h3⟩
    · by_cases hc : st.cache.contains p.fullID = true
      · rw [processItem_of_contains env st p hc] at h ⊢
        exact Or.inl h
      · have hc2 : st.cache.contains p.fullID = false := by
          cases hb : st.cache.contains p.fullID
          · rfl
          · exact absurd hb hc
        have hcache : (processItem env st p).cache =
            st.cache.record p.fullID (env.clock st.tick) := by
          rw [processItem_of_fresh env st p hc2]
        have htick : (processItem env st p).tick = st.tick + 1 := by
          rw [processItem_of_fresh env st p hc2]
        by_cases hid : id = p.fullID
        · refine Or.inr ⟨st.tick, Nat.le_refl _, ?_, ?_⟩
          · have hlt : st.tick < (processItem env st p).tick := by
              rw [htick]; exact Nat.lt_succ_self _
            exact Nat.lt_of_lt_of_le hlt (processLoop_tick_le env rest _)
          · rw [h, hcache, lookup_record, if_pos hid]
        · refine Or.inl ?_
          rw [h, hcache, lookup_record, if_neg hid]
    · exact Or.inr ⟨i, Nat.le_trans (processItem_tick_le env st p) h1, h2, h3⟩

theorem appends_invariant (env : CycleEnv) :
    ∀ (posts : List RedditPost) (st : LoopState),
      (∀ e ∈ st.appends, st.cache.lookup e.id = some (env.clock e.tick)) →
      (st.appends.map AppendEvent.id).Nodup →
      (∀ e ∈ (processLoop env posts st).appends,
          (processLoop env posts st).cache.lookup e.id = some (env.clock e.tick)) ∧
      ((processLoop env posts st).appends.map AppendEvent.id).Nodup := by
  intro posts
  induction posts with
  | nil => intro st h1 h2; exact ⟨h1, h2⟩
  | cons p rest ih =>
    intro st h1 h2
    rw [processLoop_cons]
    by_cases hc : st.cache.contains p.fullID = true
    · rw [processItem_of_contains env st p hc]
      exact ih st h1 h2
    · have hc2 : st.cache.contains p.fullID = false := by
        cases hb : st.cache.contains p.fullID
        · rfl
        · exact absurd hb hc
      have hcache : (processItem env st p).cache =
          st.cache.record p.fullID (env.clock st.tick) := by
        rw [processItem_of_fresh env st p hc2]
      have happ : (processItem env st p).appends = st.appends ++
          [⟨p.fullID, renderContent p, st.tick,
            st.cache.record p.fullID (env.clock st.tick),
            env.sinkOk (renderContent p)⟩] := by
        rw [processItem_of_fresh env st p hc2]
      apply ih (processItem env st p)
      · intro e he
        rw [happ] at he
        rcases List.mem_append.mp he with hold | hnew
        · have hne : e.id ≠ p.fullID := by
            intro hcontra
            have hcon := contains_of_lookup_some st.cache e.id (env.clock e.tick) (h1 e hold)
            rw [hcontra] at hcon
            exact hc hcon
          rw [hcache, lookup_record, if_neg hne]
          exact h1 e hold
        · have he2 : e = ⟨p.fullID, renderContent p, st.tick,
              st.cache.record p.fullID (env.clock st.tick),
              env.sinkOk (renderContent p)⟩ := List.mem_singleton.mp hnew
          rw [he2, hcache]
          show (st.cache.record p.fullID (env.clock st.tick)).lookup p.fullID =
            some (env.clock st.tick)
          rw [lookup_record, if_pos rfl]
      · rw [happ, List.map_append]
        refine List.Nodup.append h2 (List.nodup_singleton _) ?_
        intro x hx hx2
        simp at hx2
        rcases List.mem_map.mp hx with ⟨e, he, heid⟩
        have hcon := contains_of_lookup_some st.cache e.id (env.clock e.tick) (h1 e he)
        rw [heid, hx2] at hcon
        exact hc hcon

theorem appends_fresh (env : CycleEnv) :
    ∀ (posts : List RedditPost) (st : LoopState) (e : AppendEvent),
      e ∈ (processLoop env posts st).appends →
      e ∈ st.appends ∨ st.cache.contains e.id = false := by
  intro posts
  induction posts with
  | nil => intro st e he; exact Or.inl he
  | cons p rest ih =>
    intro st e he
    rw [processLoop_cons] at he
    by_cases hc : st.cache.contains p.fullID = true
    · rw [processItem_of_contains env st p hc] at he
      exact ih st e he
    · have hc2 : st.cache.contains p.fullID = false := by
        cases hb : st.cache.contains p.fullID
        · rfl
        · exact absurd hb hc
      have hcache : (processItem env st p).cache =
          st.cache.record p.fullID (env.clock st.tick) := by
        rw [processItem_of_fresh env st p hc2]
      have happ : (processItem env st p).appends = st.appends ++
          [⟨p.fullID, renderContent p, st.tick,
            st.cache.record p.fullID (env.clock st.tick),
            env.sinkOk (renderContent p)⟩] := by
        rw [processItem_of_fresh env st p hc2]
      rcases ih (processItem env st p) e he with hmem | hfresh
      · rw [happ] at hmem
        rcases List.mem_append.mp hmem with hold | hnew
        · exact Or.inl hold
        · have he2 := List.mem_singleton.mp hnew
          right
          rw [he2]
          exact hc2
      · right
        rw [hcache, contains_record] at hfresh
        simp only [Bool.or_eq_false_iff] at hfresh
        exact hfresh.2

/-! ### Counting attempted appends -/

/-- Number of append calls in a trace made for a given item id. -/
def countId (id : String) : List AppendEvent → Nat
  | [] => 0
  | e :: rest => (if e.id = id then 1 else 0) + countId id rest

theorem countId_append (id : String) :
    ∀ l1 l2 : List AppendEvent, countId id (l1 ++ l2) = countId id l1 + countId id l2 := by
  intro l1 l2
  induction l1 with
  | nil => simp [countId]
  | cons e rest ih =>
    rw [List.cons_append, countId, countId, ih, Nat.add_assoc]

theorem countId_eq_zero_of_not_mem (id : String) :
    ∀ l : List AppendEvent, id ∉ l.map AppendEvent.id → countId id l = 0 := by
  intro l
  induction l with
  | nil => intro h; rfl
  | cons e rest ih =>
    intro h
    have hne : e.id ≠ id := by
      intro hcontra
      exact h (List.mem_map.mpr ⟨e, List.mem_cons_self e rest, hcontra⟩)
    have hrest : id ∉ rest.map AppendEvent.id := by
      intro hm
      rcases List.mem_map.mp hm with ⟨e2, he2, heid⟩
      exact h (List.mem_map.mpr ⟨e2, List.mem_cons_of_mem e he2, heid⟩)
    rw [countId, if_neg hne, ih hrest]

theorem countId_le_one_of_nodup (id : String) :
    ∀ l : List AppendEvent, (l.map AppendEvent.id).Nodup → countId id l ≤ 1 := by
  intro l
  induction l with
  | nil => intro h; exact Nat.zero_le 1
  | cons e rest ih =>
    intro h
    rw [List.map_cons, List.nodup_cons] at h
    by_cases he : e.id = id
    · have hzero : countId id rest = 0 := by
        apply countId_eq_zero_of_not_mem
        rw [← he]
        exact h.1
      rw [countId, if_pos he, hzero]
    · rw [countId, if_neg he, Nat.zero_add]
      exact ih h.2

/-! ### Cycle-level consequences -/

theorem appended_in_result_cache (env : CycleEnv) (posts : List RedditPost) (c : Cache)
    (hdrift : ∀ i j : Nat, env.clock j - env.clock i ≤ sevenDays) :
    ∀ e ∈ (processNewPosts env (some posts) c).appends,
      (processNewPosts env (some posts) c).cache.contains e.id = true := by
  intro e he
  have hinv := appends_invariant env posts (initLoopState c)
    (by intro e2 he2; exact absurd he2 (List.not_mem_nil e2)) List.nodup_nil
  have hli := hinv.1 e he
  show ((processLoop env posts (initLoopState c)).cache.evict
      (env.clock (processLoop env posts (initLoopState c)).tick) sevenDays).contains e.id = true
  exact contains_evict_of_lookup _ _ _ _ _ hli
    (hdrift e.tick (processLoop env posts (initLoopState c)).tick)

theorem result_appends_nodup (env : CycleEnv) (posts : List RedditPost) (c : Cache) :
    ((processNewPosts env (some posts) c).appends.map AppendEvent.id).Nodup :=
  (appends_invariant env posts (initLoopState c)
    (by intro e he; exact absurd he (List.not_mem_nil e)) List.nodup_nil).2

theorem appended_fresh_at_entry (env : CycleEnv) (posts : List RedditPost) (c : Cache) :
    ∀ e ∈ (processNewPosts env (some posts) c).appends, c.contains e.id = false := by
  intro e he
  rcases appends_fresh env posts (initLoopState c) e he with h | h
  · exact absurd h (List.not_mem_nil e)
  · exact h

/-! ### The claims -/

/-- Claim C1: in a cycle, a fetched item whose id is not in the store is
recorded (id mapped to the current `time.Now()`) strictly before the single
sink append for it is attempted — the cache passed to the append call
already holds the record; if that append fails, the record stays in the
store, the loop goes on with the remaining items, and the failed item does
not increase the `newPosts` tally. -/
theorem c1_record_before_append (env : CycleEnv) (st : LoopState) (post : RedditPost)
    (rest : List RedditPost) (hfresh : st.cache.contains post.fullID = false) :
    processItem env st post = LoopState.mk
      (st.cache.record post.fullID (env.clock st.tick))
      (if env.sinkOk (renderContent post) then st.newPosts + 1 else st.newPosts)
      (st.tick + 1)
      (st.appends ++ [AppendEvent.mk post.fullID (renderContent post) st.tick
        (st.cache.record post.fullID (env.clock st.tick))
        (env.sinkOk (renderContent post))]) ∧
    (st.cache.record post.fullID (env.clock st.tick)).lookup post.fullID =
      some (env.clock st.tick) ∧
    processLoop env (post :: rest) st = processLoop env rest (processItem env st post) ∧
    (env.sinkOk (renderContent post) = false →
      (processItem env st post).cache.contains post.fullID = true ∧
      (processItem env st post).newPosts = st.newPosts) := by
  refine ⟨processItem_of_fresh env st post hfresh, ?_, rfl, ?_⟩
  · rw [lookup_record, if_pos rfl]
  · intro hfail
    constructor
    · rw [processItem_of_fresh env st post hfresh]
      show (st.cache.record post.fullID (env.clock st.tick)).contains post.fullID = true
      rw [contains_record]
      simp
    · rw [processItem_of_fresh env st post hfresh]
      show (if env.sinkOk (renderContent post) then st.newPosts + 1 else st.newPosts) =
        st.newPosts
      rw [hfail]
      simp

/-- Claim C2: running the cycle twice in succession with the same unchanged
batch attempts the sink append of each item id at most once in total across
both runs, because every id appended in the first run is still in the store
when the second run's contains check sees it.  The clock hypothesis says
the cycle's `time.Now()` readings lie within one retention window of each
other (a real cycle is bounded by a 30-second timeout). -/
theorem c2_two_runs_at_most_once (env1 env2 : CycleEnv) (posts : List RedditPost)
    (c : Cache) (id : String)
    (hdrift : ∀ i j : Nat, env1.clock j - env1.clock i ≤ sevenDays) :
    countId id ((processNewPosts env1 (some posts) c).appends ++
      (processNewPosts env2 (some posts)
        (processNewPosts env1 (some posts) c).cache).appends) ≤ 1 := by
  rw [countId_append]
  by_cases hmem : id ∈ (processNewPosts env1 (some posts) c).appends.map AppendEvent.id
  · have h2zero : countId id (processNewPosts env2 (some posts)
        (processNewPosts env1 (some posts) c).cache).appends = 0 := by
      apply countId_eq_zero_of_not_mem
      intro hmem2
      rcases List.mem_map.mp hmem2 with ⟨e2, he2, he2id⟩
      rcases List.mem_map.mp hmem with ⟨e1, he1, he1id⟩
      have hfr := appended_fresh_at_entry env2 posts
        (processNewPosts env1 (some posts) c).cache e2 he2
      have hin := appended_in_result_cache env1 posts c hdrift e1 he1
      rw [he1id] at hin
      rw [he2id] at hfr
      rw [hfr] at hin
      exact absurd hin (by decide)
    have h1le := countId_le_one_of_nodup id
      (processNewPosts env1 (some posts) c).appends (result_appends_nodup env1 posts c)
    omega
  · have h1zero := countId_eq_zero_of_not_mem id
      (processNewPosts env1 (some posts) c).appends hmem
    have h2le := countId_le_one_of_nodup id
      (processNewPosts env2 (some posts) (processNewPosts env1 (some posts) c).cache).appends
      (result_appends_nodup env2 posts (processNewPosts env1 (some posts) c).cache)
    omega

/-- Claim C3: on every cycle that reaches the item loop the eviction step
runs — regardless of the environment's sink behaviour, of the batch, and of
whether any item was new — using a fresh `time.Now()`; afterwards every
record left in the store has age at most the 7-day window at that time. -/
theorem c3_evict_every_cycle (env : CycleEnv) (posts : List RedditPost) (c : Cache) :
    (processNewPosts env (some posts) c).evictedAt =
      some (env.clock (processLoop env posts (initLoopState c)).tick) ∧
    (processNewPosts env (some posts) c).cache =
      (processLoop env posts (initLoopState c)).cache.evict
        (env.clock (processLoop env posts (initLoopState c)).tick) sevenDays ∧
    (processNewPosts env (some posts) c).cache.posts.all
      (fun p => decide
        (env.clock (processLoop env posts (initLoopState c)).tick - p.2 ≤ sevenDays)) =
      true := by
  refine ⟨rfl, rfl, ?_⟩
  rw [List.all_eq_true]
  intro p hp
  rw [decide_eq_true_eq]
  have hmem : p ∈ ((processLoop env posts (initLoopState c)).cache.evict
      (env.clock (processLoop env posts (initLoopState c)).tick) sevenDays).posts := hp
  exact ((mem_evict _ _ _ p).mp hmem).2

/-- Claim C4: a fetch failure aborts the cycle with nothing evaluated — the
store is returned exactly as it was, with no record added and no eviction,
no sink append is attempted, nothing is persisted, and no summary or
eviction time is produced. -/
theorem c4_fetch_failure_aborts (env : CycleEnv) (c : Cache) :
    processNewPosts env none c = CycleResult.mk c [] 0 none none none := rfl

/-- Claim C5 counterexample: on a post (not a comment) with an empty title,
src/main.go's formatter emits "Comment by {author} - ..." where the
three-case rule demands "Post by {author} - ...". -/
theorem c5_render_counterexample :
    renderContent (RedditPost.mk "t3_x" "" "alice" "/p" false) =
      "Comment by alice - https://reddit.com/p" ∧
    renderSpecThreeCase (RedditPost.mk "t3_x" "" "alice" "/p" false) =
      "Post by alice - https://reddit.com/p" ∧
    renderContent (RedditPost.mk "t3_x" "" "alice" "/p" false) ≠
      renderSpecThreeCase (RedditPost.mk "t3_x" "" "alice" "/p" false) := by
  refine ⟨rfl, rfl, ?_⟩
  decide

/-- Claim C5 as amended: src/main.go's formatter follows the two-case rule
driven solely by the title — empty title → "Comment by {author} - ...",
non-empty title → "{title} - ..." — while the src/unnamed/part_001 variant
follows the spec's three-case rule exactly; both are pure functions of the
item. -/
theorem c5_render_rules (post : RedditPost) :
    renderContent post = renderSpecTwoCase post ∧
    renderContentAlt post = renderSpecThreeCase post := by
  constructor
  · unfold renderContent renderSpecTwoCase
    by_cases h : post.title = ""
    · rw [if_neg (fun hne => hne h), if_pos h]
    · rw [if_pos h, if_neg h]
  · rfl

/-- Claim C6: loading from a missing file yields an empty store with no
error, and on a corrupt (unparseable) file the process continues with a
fresh empty store instead of terminating. -/
theorem c6_load_missing_or_corrupt :
    LoadCacheFromFile FileContents.missing = Except.ok emptyCache ∧
    loadCacheOrNew FileContents.missing = emptyCache ∧
    LoadCacheFromFile FileContents.corrupt = Except.error "failed to unmarshal cache" ∧
    loadCacheOrNew FileContents.corrupt = emptyCache :=
  ⟨rfl, rfl, rfl, rfl⟩

/-- Claim C7 counterexample: `SaveToFile` performs no rename at all — its
trace is a single in-place `os.WriteFile` on the target path — and an
interrupted in-place write can leave contents that the next load fails to
parse, so the claimed write-to-temp-then-rename atomicity is absent. -/
theorem c7_no_rename_counterexample :
    (saveToFileOps emptyCache "reddit2dynalist.cache.json").any FsOp.isRename = false ∧
    saveToFileOps emptyCache "reddit2dynalist.cache.json" =
      [FsOp.writeFile "reddit2dynalist.cache.json" []] ∧
    FileContents.corrupt ∈
      crashOutcomes (FsOp.writeFile "reddit2dynalist.cache.json" []) ∧
    LoadCacheFromFile FileContents.corrupt = Except.error "failed to unmarshal cache" := by
  refine ⟨rfl, rfl, ?_, rfl⟩
  simp [crashOutcomes]

/-- Claim C7 as amended: `SaveToFile` serializes the full record set but
writes it with a single direct `os.WriteFile` to the target path — no
temporary file, no rename — so a crash mid-write can leave an unparseable
file; the next load then errors and the process continues with a fresh
empty store. -/
theorem c7_save_in_place (c : Cache) (fn : String) :
    saveToFileOps c fn = [FsOp.writeFile fn (jsonOfCache c)] ∧
    (saveToFileOps c fn).any FsOp.isRename = false ∧
    FileContents.corrupt ∈ crashOutcomes (FsOp.writeFile fn (jsonOfCache c)) ∧
    loadCacheOrNew FileContents.corrupt = emptyCache := by
  refine ⟨rfl, rfl, ?_, rfl⟩
  simp [crashOutcomes]

theorem lookupPosts_dedupKeys (id : String) :
    ∀ l : List (String × Int), lookupPosts id (dedupKeys l) = lookupPosts id l := by
  intro l
  induction l with
  | nil => rfl
  | cons p rest ih =>
    rw [dedupKeys, lookupPosts, lookupPosts]
    by_cases h : p.1 = id
    · rw [if_pos h, if_pos h]
    · have hi : id ≠ p.1 := fun hc => h hc.symm
      rw [if_neg h, if_neg h, lookupPosts_erase_ne id p.1 hi (dedupKeys rest), ih]

/-- Claim C8: persisting a store and loading the result back gives a store
with exactly the same contained ids, each mapped to the same first-seen
timestamp: what `SaveToFile` writes is the serialized record set
`jsonOfCache c`, loading it succeeds, and every lookup agrees with the
original store. -/
theorem c8_round_trip (c : Cache) (fn : String) (id : String) :
    saveToFileOps c fn = [FsOp.writeFile fn (jsonOfCache c)] ∧
    LoadCacheFromFile (FileContents.valid (jsonOfCache c)) =
      Except.ok (Cache.mk (jsonOfCache c)) ∧
    (Cache.mk (jsonOfCache c)).lookup id = c.lookup id ∧
    (Cache.mk (jsonOfCache c)).contains id = c.contains id := by
  refine ⟨rfl, rfl, ?_, ?_⟩
  · exact lookupPosts_dedupKeys id c.posts
  · unfold Cache.contains
    rw [show (Cache.mk (jsonOfCache c)).lookup id = c.lookup id from
      lookupPosts_dedupKeys id c.posts]

/-- Claim C9: the eviction boundary is exclusive — an entry is removed
exactly when its age `now - firstSeenAt` is strictly greater than the
window, so a record whose age is exactly 7 days at eviction time is
retained, and one 1ns older is dropped. -/
theorem c9_evict_boundary_strict (c : Cache) (now w : Int) (p : String × Int) :
    (p ∈ (c.evict now w).posts ↔ (p ∈ c.posts ∧ ¬ (now - p.2 > w))) ∧
    ((Cache.mk [("a", 0)]).evict sevenDays sevenDays).contains "a" = true ∧
    ((Cache.mk [("a", 0)]).evict (sevenDays + 1) sevenDays).contains "a" = false := by
  refine ⟨?_, by decide, by decide⟩
  rw [mem_evict]
  simp [gt_iff_lt, not_lt]

/-- Claim C10: an item absent from the store at the start of a cycle that
appears in the cycle's batch is in the store at the end of that same cycle
— its fresh record survives the cycle's own eviction, given that the
cycle's `time.Now()` readings are monotone and span at most the retention
window — and the persisted snapshot is exactly that post-eviction store. -/
theorem c10_fresh_record_survives (env : CycleEnv) (posts : List RedditPost) (c : Cache)
    (post : RedditPost)
    (hmem : post ∈ posts)
    (hfresh : c.contains post.fullID = false)
    (hmono : ∀ i j : Nat, i ≤ j → env.clock i ≤ env.clock j)
    (hdrift : ∀ i j : Nat, env.clock j - env.clock i ≤ sevenDays) :
    (processNewPosts env (some posts) c).cache.contains post.fullID = true ∧
    (processNewPosts env (some posts) c).persisted =
      some ((processNewPosts env (some posts) c).cache) := by
  constructor
  · have hcont := contains_processLoop_of_mem env posts (initLoopState c) post hmem
    rcases lookup_processLoop env posts (initLoopState c) post.fullID with h | ⟨i, _, _, hi3⟩
    · have hnone := lookup_eq_none_of_contains_false c post.fullID hfresh
      have hnone2 : (initLoopState c).cache.lookup post.fullID = none := hnone
      rw [hnone2] at h
      unfold Cache.contains at hcont
      rw [h] at hcont
      simp at hcont
    · show ((processLoop env posts (initLoopState c)).cache.evict
        (env.clock (processLoop env posts (initLoopState c)).tick) sevenDays).contains
          post.fullID = true
      exact contains_evict_of_lookup _ _ _ _ _ hi3
        (hdrift i (processLoop env posts (initLoopState c)).tick)
  · rfl

/-! ### Concrete instances -/

/-- An environment whose clock always reads 0 and whose sink always
succeeds. -/
def constEnv : CycleEnv := ⟨fun _ => 0, fun _ => true⟩

/-- An environment whose clock always reads 0 and whose sink always
fails. -/
def failEnv : CycleEnv := ⟨fun _ => 0, fun _ => false⟩

/-- A concrete saved post. -/
def samplePost : RedditPost := ⟨"t3_a", "Title", "alice", "/p", false⟩

theorem constEnv_mono (i j : Nat) (h : i ≤ j) : constEnv.clock i ≤ constEnv.clock j := by
  show (0 : Int) ≤ 0
  exact le_refl 0

theorem constEnv_drift (i j : Nat) : constEnv.clock j - constEnv.clock i ≤ sevenDays := by
  show (0 : Int) - 0 ≤ sevenDays
  decide

theorem c1_witness :
    processItem failEnv (initLoopState emptyCache) samplePost = LoopState.mk
      ((initLoopState emptyCache).cache.record samplePost.fullID
        (failEnv.clock (initLoopState emptyCache).tick))
      (if failEnv.sinkOk (renderContent samplePost)
        then (initLoopState emptyCache).newPosts + 1
        else (initLoopState emptyCache).newPosts)
      ((initLoopState emptyCache).tick + 1)
      ((initLoopState emptyCache).appends ++
        [AppendEvent.mk samplePost.fullID (renderContent samplePost)
          (initLoopState emptyCache).tick
          ((initLoopState emptyCache).cache.record samplePost.fullID
            (failEnv.clock (initLoopState emptyCache).tick))
          (failEnv.sinkOk (renderContent samplePost))]) ∧
    ((initLoopState emptyCache).cache.record samplePost.fullID
      (failEnv.clock (initLoopState emptyCache).tick)).lookup samplePost.fullID =
      some (failEnv.clock (initLoopState emptyCache).tick) ∧
    processLoop failEnv (samplePost :: []) (initLoopState emptyCache) =
      processLoop failEnv [] (processItem failEnv (initLoopState emptyCache) samplePost) ∧
    (failEnv.sinkOk (renderContent samplePost) = false →
      (processItem failEnv (initLoopState emptyCache) samplePost).cache.contains
        samplePost.fullID = true ∧
      (processItem failEnv (initLoopState emptyCache) samplePost).newPosts =
        (initLoopState emptyCache).newPosts) :=
  c1_record_before_append failEnv (initLoopState emptyCache) samplePost [] (by decide)

theorem c2_witness :
    countId "t3_a" ((processNewPosts constEnv (some [samplePost]) emptyCache).appends ++
      (processNewPosts constEnv (some [samplePost])
        (processNewPosts constEnv (some [samplePost]) emptyCache).cache).appends) ≤ 1 :=
  c2_two_runs_at_most_once constEnv constEnv [samplePost] emptyCache "t3_a" constEnv_drift

theorem c10_witness :
    (processNewPosts constEnv (some [samplePost]) emptyCache).cache.contains
      samplePost.fullID = true ∧
    (processNewPosts constEnv (some [samplePost]) emptyCache).persisted =
      some ((processNewPosts constEnv (some [samplePost]) emptyCache).cache) :=
  c10_fresh_record_survives constEnv [samplePost] emptyCache samplePost
    (List.mem_singleton.mpr rfl) (by decide) constEnv_mono constEnv_drift
